import Mathlib

/-!
Verification of the remote-apis-sdks client-side transfer engine against its
natural-language specification.  The Go sources under `go/pkg/tool/tool.go`
and `go/pkg/flags/flags.go` are embedded shallowly: every external
collaborator call (gRPC client methods, digest parsing, the local clock and
temp-file namer) becomes a field of an `Env` oracle record, filesystem and
network side effects become an explicit `Event` trace, and each Go function
becomes a Lean function returning its result together with the trace of
events it performed, in program order.  The local filesystem is modelled as
reliable: a file read back after a successful write returns the written
bytes.  Components of the repository whose sources are not in the visible
slice (the chunker and the tree flattener of `go/pkg/tree`) are modelled
from the specification text; their doc comments say so explicitly.
-/

namespace RemoteAPIs

/-- Content digest: hash plus byte length (`go/pkg/digest`).  The digest
package itself is outside the visible sources, so parsing is an oracle in
`Env`; only the value shape is fixed here. -/
structure Digest where
  hash : String
  size : Int
deriving DecidableEq

/-- Canonical textual form of a digest, `hash/size` (used by `%v` formatting
of digests in tool.go log and display strings). -/
def digestStr (d : Digest) : String :=
  d.hash ++ "/" ++ toString d.size

/-- The canonical empty-content digest constant (`digest.Empty`). -/
def emptyDigest : Digest :=
  { hash := "e3b0c44298fc1c149afbf4c8996fb92427ae41e4649b934ca495991b7852b855", size := 0 }

/-- Errors are abstracted to their message; the embedding only tracks which
error value flows where, never inspects messages. -/
inductive Err where
  | msg (s : String)
deriving DecidableEq

/-- `true` exactly on `Except.error`. -/
def isErr {α : Type} : Except Err α → Bool
  | .error _ => true
  | .ok _ => false

/-! ## Chunker (modelled from the spec) -/

/-- One bounded piece of a blob in flight: offset plus payload bytes. -/
structure Chunk where
  offset : Nat
  payload : List Nat
deriving DecidableEq

/-- Modelled from the spec: `go/pkg/chunker/chunker.go` is not among the
visible sources (only its build file is), so chunk production follows §4.2
of the spec: chunks are produced in strictly increasing, contiguous offset
order, each at most `chunkSize` bytes, the final chunk ending exactly at the
blob size.  `chunkFrom` produces the chunk sequence of `data` starting at
byte offset `off`. -/
def chunkFrom (chunkSize : Nat) (data : List Nat) (off : Nat) : List Chunk :=
  if data.length = 0 ∨ chunkSize = 0 then []
  else
    { offset := off, payload := data.take chunkSize } ::
      chunkFrom chunkSize (data.drop chunkSize) (off + chunkSize)
termination_by data.length
decreasing_by simp [List.length_drop]; omega

/-- Modelled from the spec: a blob below the chunk size is represented as
exactly one chunk equal to the whole content (§4.2); in particular the empty
blob is one chunk with empty payload. -/
def chunkBlob (data : List Nat) (chunkSize : Nat) : List Chunk :=
  if data.length = 0 then [{ offset := 0, payload := [] }] else chunkFrom chunkSize data 0

/-- Modelled from the spec: reassembly accepts chunks in increasing-offset
contiguous order (out-of-order or overlapping chunks fail with
OutOfOrderChunk) and appends them to a sink; the sink's accumulated size
must equal the declared total size on completion, or it fails with
IncompleteBlob (§4.2).  `acc` is the sink contents so far. -/
def reassembleAux (total : Nat) (acc : List Nat) : List Chunk → Except Err (List Nat)
  | [] => if acc.length = total then .ok acc else .error (.msg "IncompleteBlob")
  | c :: rest =>
    if c.offset = acc.length then reassembleAux total (acc ++ c.payload) rest
    else .error (.msg "OutOfOrderChunk")

/-- Reassemble a declared-size blob from its chunk sequence. -/
def reassemble (total : Nat) (chunks : List Chunk) : Except Err (List Nat) :=
  reassembleAux total [] chunks

/-! ## Lexicographic path order (Go `sort.Strings`) -/

/-- Lexicographic comparison of character lists by code point, the order Go's
`sort.Strings` uses on the (ASCII) paths sorted in tool.go. -/
def charListLe : List Char → List Char → Bool
  | [], _ => true
  | _ :: _, [] => false
  | a :: as, b :: bs =>
    if a.toNat < b.toNat then true
    else if b.toNat < a.toNat then false
    else charListLe as bs

/-- Lexicographic order on strings, as a Boolean comparator. -/
def pathLe (a b : String) : Bool :=
  charListLe a.data b.data

/-- Lexicographic order on strings, as a relation (used for sorting paths). -/
def PathLe (a b : String) : Prop :=
  pathLe a b = true

instance : DecidableRel PathLe := fun a b =>
  inferInstanceAs (Decidable (pathLe a b = true))

/-! ## Directory trees and flattening -/

/-- A file child of a directory node: name and content digest. -/
structure FileNode where
  name : String
  digest : Digest
deriving DecidableEq

/-- A subdirectory child of a directory node, referenced by digest. -/
structure DirNode where
  name : String
  digest : Digest
deriving DecidableEq

/-- A symlink child of a directory node: name and literal target string. -/
structure SymlinkNode where
  name : String
  target : String
deriving DecidableEq

/-- One directory level of the Merkle tree (`repb.Directory`). -/
structure Directory where
  files : List FileNode
  directories : List DirNode
  symlinks : List SymlinkNode
deriving DecidableEq

/-- `repb.Tree`: a root directory plus the list of directory nodes reachable
from it, against which subdirectory digests are resolved. -/
structure Tree where
  root : Directory
  children : List Directory
deriving DecidableEq

/-- One resolved path in a flattened tree, mirroring the `TreeOutput` fields
tool.go reads (lines 356-365): `IsEmptyDirectory`, `Digest`,
`SymlinkTarget`. -/
structure TreeOutput where
  isEmptyDirectory : Bool
  digest : Digest
  symlinkTarget : String
deriving DecidableEq

/-- A directory with zero children of any kind. -/
def isEmptyDir (d : Directory) : Bool :=
  d.files.isEmpty && d.directories.isEmpty && d.symlinks.isEmpty

/-- All child names of one directory node, across the three child kinds. -/
def allNames (d : Directory) : List String :=
  d.files.map FileNode.name ++ d.directories.map DirNode.name ++
    d.symlinks.map SymlinkNode.name

/-- A string containing no path separator. -/
def slashFree (s : String) : Prop :=
  ('/' : Char) ∉ s.data

instance (s : String) : Decidable (slashFree s) :=
  inferInstanceAs (Decidable (('/' : Char) ∉ s.data))

/-- Child path construction: parent path + "/" + child name, with the root at
the empty path (`filepath.Join` as used by the flattener with a root prefix
of `""`). -/
def pathJoin (p name : String) : String :=
  if p = "" then name else p ++ "/" ++ name

/-- Modelled from the spec: the recursive resolution step of
`tree.FlattenTree` (`go/pkg/tree` is not among the visible sources).  For
each subdirectory reference the child digest is resolved (failing with
MissingNode if it cannot be); an empty directory becomes its own
empty-directory entry at its path; a non-empty one is flattened recursively
via `flat` (§4.4).  `flat` is the recursive flattener for one level deeper,
passed explicitly so the recursion is structural. -/
def flattenSubdirs (resolve : Digest → Option Directory)
    (flat : Directory → String → Except Err (List (String × TreeOutput))) :
    List DirNode → String → Except Err (List (String × TreeOutput))
  | [], _ => .ok []
  | dn :: rest, p =>
    match resolve dn.digest with
    | none => .error (.msg ("MissingNode: " ++ digestStr dn.digest))
    | some sub =>
      match (if isEmptyDir sub then
               .ok [(pathJoin p dn.name, ⟨true, dn.digest, ""⟩)]
             else flat sub (pathJoin p dn.name)) with
      | .error e => .error e
      | .ok here =>
        match flattenSubdirs resolve flat rest p with
        | .error e => .error e
        | .ok there => .ok (here ++ there)

/-- Modelled from the spec: flatten one directory at path prefix `p` into
path-keyed entries — files and symlinks become leaf entries, subdirectories
are resolved and recursed into (§4.4).  Symlink entries carry the literal
target string; their digest field is the canonical empty digest since a
symlink has no content digest.  `fuel` defensively bounds recursion depth
(design note §9). -/
def flattenAux (resolve : Digest → Option Directory) :
    Nat → Directory → String → Except Err (List (String × TreeOutput))
  | 0, _, _ => .error (.msg "exceeded max tree depth")
  | fuel + 1, d, p =>
    match flattenSubdirs resolve (flattenAux resolve fuel) d.directories p with
    | .error e => .error e
    | .ok subs =>
      .ok ((d.files.map fun f => (pathJoin p f.name, ⟨false, f.digest, ""⟩))
        ++ subs
        ++ (d.symlinks.map fun s => (pathJoin p s.name, ⟨false, emptyDigest, s.target⟩)))

/-- Resolve a digest against a `repb.Tree`'s children list; `digestOf` is the
external hash of a directory node's canonical serialized form. -/
def treeResolve (digestOf : Directory → Digest) (children : List Directory)
    (dg : Digest) : Option Directory :=
  children.find? fun d => decide (digestOf d = dg)

/-- Modelled from the spec: `tree.FlattenTree(t, "")` — flatten a `repb.Tree`
from its root at the empty path prefix. -/
def FlattenTree (digestOf : Directory → Digest) (fuel : Nat) (t : Tree) :
    Except Err (List (String × TreeOutput)) :=
  flattenAux (treeResolve digestOf t.children) fuel t.root ""

/-- Association-list lookup by path, the model of Go's `outputs[path]` map
access in tool.go line 357. -/
def lookupPath : List (String × TreeOutput) → String → Option TreeOutput
  | [], _ => none
  | (k, v) :: rest, p => if k = p then some v else lookupPath rest p

/-- One display line of tool.go's `flattenTree` (lines 358-364): empty
directories, then symlinks (non-empty target), then files. -/
def renderOutput (path : String) (o : TreeOutput) : String :=
  if o.isEmptyDirectory then
    path ++ ": [Directory digest: " ++ digestStr o.digest ++ "]\n"
  else if o.symlinkTarget ≠ "" then
    path ++ ": [Symlink digest: " ++ digestStr o.digest ++ ", Symlink Target: " ++
      o.symlinkTarget ++ "]\n"
  else
    path ++ ": [File digest: " ++ digestStr o.digest ++ "]\n"

/-- tool.go lines 350-355: collect the map's keys and sort them
(`sort.Strings`).  The input list stands for Go's map in an arbitrary
iteration order; sorting makes the result order-independent. -/
def sortedPaths (outputs : List (String × TreeOutput)) : List String :=
  List.insertionSort PathLe (outputs.map Prod.fst)

/-- tool.go lines 356-365: render each entry in sorted path order. -/
def displayOutputs (outputs : List (String × TreeOutput)) : String :=
  String.join ((sortedPaths outputs).map fun p =>
    match lookupPath outputs p with
    | some o => renderOutput p o
    | none => "")

/-- tool.go `flattenTree` (lines 344-367): flatten, sort the paths, render;
returns the rendered string and the sorted path list. -/
def flattenTree (digestOf : Directory → Digest) (fuel : Nat) (t : Tree) :
    Except Err (String × List String) :=
  match FlattenTree digestOf fuel t with
  | .error e => .error e
  | .ok outputs => .ok (displayOutputs outputs, sortedPaths outputs)

/-! ## Side-effect events -/

/-- One observable side effect, in program order: `removeAll`/`mkdir` are the
destination cleanup calls, `createTemp`/`fsWrite`/`fsRemove` are local file
operations, `net` is one RPC to the remote service. -/
inductive Event where
  | removeAll (path : String)
  | mkdir (path : String)
  | createTemp (path : String)
  | fsWrite (path : String) (contents : String)
  | fsRemove (path : String)
  | net (rpc : String)
deriving DecidableEq

/-- Events that touch the local filesystem (everything except `net`). -/
def isFsEvent : Event → Bool
  | .net _ => false
  | _ => true

/-! ## Protobuf message shapes used by tool.go -/

/-- `repb.Action`: command digest, input-root digest, optional timeout
(durations as integer nanoseconds).  Proto digest fields are `Option` since
the wire message may omit them. -/
structure Action where
  commandDigest : Option Digest
  inputRootDigest : Option Digest
  timeout : Option Int
deriving DecidableEq

/-- `repb.Command` as read from the wire. -/
structure CommandPb where
  arguments : List String
  environmentVariables : List (String × String)
  platform : List (String × String)
  workingDirectory : String
  outputFiles : List String
  outputDirectories : List String
deriving DecidableEq

/-- `command.Command` as built by `commandFromREProto` and then adjusted by
`ReexecuteAction`; the env-var and platform maps are association lists with
overwrite-on-insert semantics. -/
structure Command where
  envVars : List (String × String)
  workingDir : String
  outputFiles : List String
  outputDirs : List String
  platform : List (String × String)
  args : List String
  inputs : List String
  execRoot : String
  timeout : Option Int
deriving DecidableEq

/-- One output file of an action result. -/
structure OutputFile where
  path : String
  digest : Option Digest
deriving DecidableEq

/-- One output directory of an action result, referencing a `repb.Tree`. -/
structure OutputDirectory where
  treeDigest : Option Digest
deriving DecidableEq

/-- `repb.ActionResult` as used by tool.go. -/
structure ActionResult where
  stdoutDigest : Option Digest
  stderrDigest : Option Digest
  outputFiles : List OutputFile
  outputDirectories : List OutputDirectory
deriving DecidableEq

/-- `command.ResultStatus` values distinguished by `ReexecuteAction`'s final
switch. -/
inductive ResultStatus where
  | success
  | nonZeroExit
  | timedOut
  | interrupted
  | remoteError
  | localError
deriving DecidableEq

/-- The result of `rexec.Client.Run`. -/
structure RunResult where
  status : ResultStatus
  exitCode : Int
  err : Option Err
deriving DecidableEq

/-- Go map insertion with overwrite, on an association list. -/
def assocInsert : List (String × String) → String → String → List (String × String)
  | [], k, v => [(k, v)]
  | (k', v') :: rest, k, v =>
    if k' = k then (k, v) :: rest else (k', v') :: assocInsert rest k v

/-- tool.go `commandFromREProto` (lines 113-133). -/
def commandFromREProto (c : CommandPb) : Command :=
  { envVars := c.environmentVariables.foldl (fun m kv => assocInsert m kv.1 kv.2) []
    workingDir := c.workingDirectory
    outputFiles := c.outputFiles
    outputDirs := c.outputDirectories
    platform := c.platform.foldl (fun m kv => assocInsert m kv.1 kv.2) []
    args := c.arguments
    inputs := []
    execRoot := ""
    timeout := none }

/-! ## The oracle environment -/

/-- Every external collaborator of tool.go, as a deterministic oracle:
digest parsing (`digest.NewFromString` / `digest.NewFromProto`), the gRPC
client's methods, `ioutil.TempFile` (the name it allocates), `os.TempDir`,
the formatted current time, the directory-node hash, `ptypes.Duration`, and
`rexec.Client.Run`.  `flattenFuel` is the defensive recursion bound used
when flattening trees. -/
structure Env where
  newFromString : String → Except Err Digest
  newFromProto : Option Digest → Except Err Digest
  checkActionCache : Digest → Except Err (Option ActionResult)
  readActionProto : Digest → Except Err Action
  readCommandProto : Digest → Except Err CommandPb
  readTreeProto : Digest → Except Err Tree
  getDirectoryTree : Option Digest → Except Err (List Directory)
  downloadActionOutputs : ActionResult → String → Except Err Unit
  readBlob : Digest → Except Err String
  readBlobToFile : Digest → String → Except Err String
  downloadDirectory : Digest → String → Except Err Unit
  tempFile : Except Err String
  tempDir : String
  nowStr : String
  digestOf : Directory → Digest
  durationFromProto : Int → Except Err Int
  run : Command → RunResult
  flattenFuel : Nat

/-! ## tool.go operations -/

/-- The two fixed output file names (tool.go lines 29-32). -/
def stdoutFile : String := "stdout"

/-- See `stdoutFile`. -/
def stderrFile : String := "stderr"

/-- tool.go `getActionResult` (lines 369-386): parse the digest string, then
query the action cache; a nil result is an error. -/
def getActionResult (env : Env) (actionDigest : String) :
    Except Err ActionResult × List Event :=
  match env.newFromString actionDigest with
  | .error e => (.error e, [])
  | .ok acDg =>
    match env.checkActionCache acDg with
    | .error e => (.error e, [.net "GetActionResult"])
    | .ok none =>
      (.error (.msg ("action digest " ++ digestStr acDg ++ " not found in cache")),
        [.net "GetActionResult"])
    | .ok (some res) => (.ok res, [.net "GetActionResult"])

/-- tool.go `getInputTree` (lines 314-342): convert the proto digest, fetch
the full directory tree, fail if zero directory nodes come back, build a
`repb.Tree` whose root is the first node, and flatten it. -/
def getInputTree (env : Env) (root : Option Digest) :
    Except Err (String × List String) × List Event :=
  match env.newFromProto root with
  | .error e => (.error e, [])
  | .ok dg =>
    match env.getDirectoryTree root with
    | .error e => (.error e, [.net "GetTree"])
    | .ok [] =>
      (.error (.msg ("Empty directories returned by GetTree for " ++ digestStr dg)),
        [.net "GetTree"])
    | .ok (d0 :: rest) =>
      match flattenTree env.digestOf env.flattenFuel { root := d0, children := d0 :: rest } with
      | .error e => (.error e, [.net "GetTree"])
      | .ok (inputs, paths) =>
        (.ok ("[Root directory digest: " ++ digestStr dg ++ "]" ++ "\n" ++ inputs, paths),
          [.net "GetTree"])

/-- The output-files listing loop of tool.go `getOutputs` (lines 284-290). -/
def outputFilesStr (env : Env) : List OutputFile → Except Err String
  | [] => .ok ""
  | of :: rest =>
    match env.newFromProto of.digest with
    | .error e => .error e
    | .ok dg =>
      match outputFilesStr env rest with
      | .error e => .error e
      | .ok s => .ok (of.path ++ ", digest: " ++ digestStr dg ++ "\n" ++ s)

/-- The output-directories loop of tool.go `getOutputs` (lines 292-310):
convert each tree digest, read the `repb.Tree`, flatten and render it. -/
def outputDirsStr (env : Env) : List OutputDirectory → Except Err String × List Event
  | [] => (.ok "", [])
  | od :: rest =>
    match env.newFromProto od.treeDigest with
    | .error e => (.error e, [])
    | .ok dg =>
      match env.readTreeProto dg with
      | .error e => (.error e, [.net "ReadProto"])
      | .ok t =>
        match flattenTree env.digestOf env.flattenFuel t with
        | .error e => (.error e, [.net "ReadProto"])
        | .ok (outs, _) =>
          match outputDirsStr env rest with
          | (.error e, tr) => (.error e, .net "ReadProto" :: tr)
          | (.ok s, tr) => (.ok ("\n" ++ outs ++ s), .net "ReadProto" :: tr)

/-- tool.go `getOutputs` (lines 281-312). -/
def getOutputs (env : Env) (ar : ActionResult) : Except Err String × List Event :=
  match outputFilesStr env ar.outputFiles with
  | .error e => (.error e, [])
  | .ok fs =>
    match outputDirsStr env ar.outputDirectories with
    | (.error e, tr) => (.error e, tr)
    | (.ok ds, tr) =>
      (.ok ("Output Files:\n=============\n" ++ fs ++
        "\nOutput Files From Directories:\n=================\n" ++ ds), tr)

/-- tool.go `ShowAction` (lines 232-279): fetch the action result, parse the
action digest, read the Action and Command protos, render the input tree and
the outputs. -/
def ShowAction (env : Env) (actionDigest : String) : Except Err String × List Event :=
  match getActionResult env actionDigest with
  | (.error e, tr) => (.error e, tr)
  | (.ok resPb, tr0) =>
    match env.newFromString actionDigest with
    | .error e => (.error e, tr0)
    | .ok acDg =>
      match env.readActionProto acDg with
      | .error e => (.error e, tr0 ++ [.net "ReadProto"])
      | .ok actionProto =>
        match env.newFromProto actionProto.commandDigest with
        | .error e => (.error e, tr0 ++ [.net "ReadProto"])
        | .ok cmdDg =>
          match env.readCommandProto cmdDg with
          | .error e => (.error e, tr0 ++ [.net "ReadProto", .net "ReadProto"])
          | .ok commandProto =>
            match getInputTree env actionProto.inputRootDigest with
            | (.error e, tr1) => (.error e, tr0 ++ [.net "ReadProto", .net "ReadProto"] ++ tr1)
            | (.ok (inpTree, _), tr1) =>
              match getOutputs env resPb with
              | (.error e, tr2) =>
                (.error e, tr0 ++ [.net "ReadProto", .net "ReadProto"] ++ tr1 ++ tr2)
              | (.ok outs, tr2) =>
                (.ok ("Command\n========\n" ++ "Command Digest: " ++ digestStr cmdDg ++ "\n"
                    ++ "\t" ++ String.intercalate " " commandProto.arguments ++ "\n"
                    ++ "\nInputs\n======\n" ++ inpTree ++ "\n" ++ outs),
                  tr0 ++ [.net "ReadProto", .net "ReadProto"] ++ tr1 ++ tr2)

/-- tool.go `ReexecuteAction` (lines 41-111): parse the action digest, read
the Action and Command protos, resolve the input tree, optionally download
the input root into a fresh temp directory, build the `command.Command`, and
run it remotely; the call returns the run's error. -/
def ReexecuteAction (env : Env) (actionDigest inputRoot : String) :
    Except Err Unit × List Event :=
  match env.newFromString actionDigest with
  | .error e => (.error e, [])
  | .ok acDg =>
    match env.readActionProto acDg with
    | .error e => (.error e, [.net "ReadProto"])
    | .ok actionProto =>
      match env.newFromProto actionProto.commandDigest with
      | .error e => (.error e, [.net "ReadProto"])
      | .ok _cmdDg =>
        match env.readCommandProto _cmdDg with
        | .error e => (.error e, [.net "ReadProto", .net "ReadProto"])
        | .ok commandProto =>
          match getInputTree env actionProto.inputRootDigest with
          | (.error e, tr) => (.error e, [.net "ReadProto", .net "ReadProto"] ++ tr)
          | (.ok (_, inputPaths), tr) =>
            let trPre := [Event.net "ReadProto", Event.net "ReadProto"] ++ tr
            match (if inputRoot = "" then
                     let newRoot := env.tempDir ++ "/" ++ acDg.hash ++ "_" ++ env.nowStr
                     match env.newFromProto actionProto.inputRootDigest with
                     | .error e => (Except.error e, ([] : List Event))
                     | .ok dg =>
                       match env.downloadDirectory dg newRoot with
                       | .error e => (Except.error e, [Event.net "DownloadDirectory"])
                       | .ok _ => (Except.ok newRoot, [Event.net "DownloadDirectory"])
                   else (Except.ok inputRoot, ([] : List Event))) with
            | (.error e, tr2) => (.error e, trPre ++ tr2)
            | (.ok execRoot, tr2) =>
              let cmd1 := { commandFromREProto commandProto with
                            inputs := inputPaths, execRoot := execRoot }
              match (match actionProto.timeout with
                     | none => Except.ok cmd1
                     | some tpb =>
                       match env.durationFromProto tpb with
                       | .error e => Except.error e
                       | .ok tm => Except.ok { cmd1 with timeout := some tm }) with
              | .error e => (.error e, trPre ++ tr2)
              | .ok cmd =>
                let res := env.run cmd
                (match res.err with
                 | some e => .error e
                 | none => .ok (), trPre ++ tr2 ++ [.net "Execute"])

/-- The stdout/stderr download step of `DownloadActionResult` (tool.go lines
156-176) for one entry of the `outMsgs` map: a nil digest is skipped;
otherwise the blob is read (a read failure is only logged, leaving empty
contents) and the file is written unconditionally. -/
def outMsgEvents (env : Env) (path : String) (reDg : Option Digest) : List Event :=
  match reDg with
  | none => []
  | some dg =>
    match env.readBlob dg with
    | .ok b => [.net "ReadBlob", .fsWrite path b]
    | .error _ => [.net "ReadBlob", .fsWrite path ""]

/-- tool.go `DownloadActionResult` (lines 137-179): fetch the action result,
then remove and recreate the destination, download the outputs (failure only
logged), then download stdout and stderr (failures only logged), and return
nil. -/
def DownloadActionResult (env : Env) (actionDigest pathPrefix : String) :
    Except Err Unit × List Event :=
  match getActionResult env actionDigest with
  | (.error e, tr) => (.error e, tr)
  | (.ok resPb, tr0) =>
    let tr1 := tr0 ++ [Event.removeAll pathPrefix, Event.mkdir pathPrefix,
      Event.net "DownloadActionOutputs"]
    let trOut := outMsgEvents env (pathJoin pathPrefix stdoutFile) resPb.stdoutDigest ++
      outMsgEvents env (pathJoin pathPrefix stderrFile) resPb.stderrDigest
    match env.downloadActionOutputs resPb pathPrefix with
    | .error _ => (.ok (), tr1 ++ trOut)
    | .ok _ => (.ok (), tr1 ++ trOut)

/-- tool.go `DownloadBlob` (lines 183-214): with an empty path, allocate a
temp file (removed again on every exit), parse the digest, download into the
temp file and return its contents; with a non-empty path, parse, download
into that path and return the empty string. -/
def DownloadBlob (env : Env) (blobDigest path : String) :
    Except Err String × List Event :=
  if path = "" then
    match env.tempFile with
    | .error e => (.error e, [])
    | .ok tmp =>
      match env.newFromString blobDigest with
      | .error e => (.error e, [.createTemp tmp, .fsRemove tmp])
      | .ok dg =>
        match env.readBlobToFile dg tmp with
        | .error e => (.error e, [.createTemp tmp, .net "ReadBlobToFile", .fsRemove tmp])
        | .ok contents =>
          (.ok contents,
            [.createTemp tmp, .net "ReadBlobToFile", .fsWrite tmp contents, .fsRemove tmp])
  else
    match env.newFromString blobDigest with
    | .error e => (.error e, [])
    | .ok dg =>
      match env.readBlobToFile dg path with
      | .error e => (.error e, [.net "ReadBlobToFile"])
      | .ok contents => (.ok "", [.net "ReadBlobToFile", .fsWrite path contents])

/-- tool.go `DownloadDirectory` (lines 217-229): remove and recreate the
destination first, then parse the digest, then download into it. -/
def DownloadDirectory (env : Env) (rootDigest path : String) :
    Except Err Unit × List Event :=
  match env.newFromString rootDigest with
  | .error e => (.error e, [.removeAll path, .mkdir path])
  | .ok dg =>
    match env.downloadDirectory dg path with
    | .error e => (.error e, [.removeAll path, .mkdir path, .net "DownloadDirectory"])
    | .ok _ => (.ok (), [.removeAll path, .mkdir path, .net "DownloadDirectory"])

/-! ## flags.go: per-RPC timeout overrides -/

/-- The override loop of `NewClientFromFlags` (flags.go lines 79-85): walk
the override entries, parse each duration string (`time.ParseDuration` is
the `parse` oracle), and overwrite that key in the map; the first entry that
fails to parse aborts with an error. -/
def applyOverrides (parse : String → Option Int) :
    (String → Option Int) → List (String × String) → Except Err (String → Option Int)
  | base, [] => .ok base
  | base, (rpc, s) :: rest =>
    match parse s with
    | none => .error (.msg ("time: invalid duration " ++ s))
    | some d => applyOverrides parse (fun k => if k = rpc then some d else base k) rest

/-- flags.go `NewClientFromFlags`, lines 71-87 (the RPC-timeout slice): when
no overrides are supplied no timeout option is built (`none`); otherwise the
map starts as a copy of `client.DefaultRPCTimeouts` (the `defaults` lookup)
and each override overwrites its key; a parse failure propagates, making
`NewClientFromFlags` return the error and no client. -/
def NewClientFromFlagsTimeouts (defaults : String → Option Int)
    (rpcTimeouts : List (String × String)) (parse : String → Option Int) :
    Except Err (Option (String → Option Int)) :=
  if rpcTimeouts.isEmpty then .ok none
  else
    match applyOverrides parse defaults rpcTimeouts with
    | .error e => .error e
    | .ok m => .ok (some m)

/-! ## Concrete sample values and environments (used by witnesses) -/

/-- A sample digest value. -/
def sampleDigest : Digest := { hash := "abc", size := 3 }

/-- A directory with no children. -/
def emptyDirectory : Directory := { files := [], directories := [], symlinks := [] }

/-- An action result with no outputs. -/
def sampleActionResult : ActionResult :=
  { stdoutDigest := none, stderrDigest := none, outputFiles := [], outputDirectories := [] }

/-- A sample action referencing `sampleDigest`. -/
def sampleAction : Action :=
  { commandDigest := some sampleDigest, inputRootDigest := some sampleDigest, timeout := none }

/-- A sample command proto. -/
def sampleCommandPb : CommandPb :=
  { arguments := ["echo"], environmentVariables := [], platform := [],
    workingDirectory := "", outputFiles := [], outputDirectories := [] }

/-- An environment in which every collaborator call succeeds. -/
def okEnv : Env :=
  { newFromString := fun _ => .ok sampleDigest
    newFromProto := fun _ => .ok sampleDigest
    checkActionCache := fun _ => .ok (some sampleActionResult)
    readActionProto := fun _ => .ok sampleAction
    readCommandProto := fun _ => .ok sampleCommandPb
    readTreeProto := fun _ => .ok { root := emptyDirectory, children := [emptyDirectory] }
    getDirectoryTree := fun _ => .ok [emptyDirectory]
    downloadActionOutputs := fun _ _ => .ok ()
    readBlob := fun _ => .ok "blob-bytes"
    readBlobToFile := fun _ _ => .ok "blob-bytes"
    downloadDirectory := fun _ _ => .ok ()
    tempFile := .ok "/tmp/blob123"
    tempDir := "/tmp"
    nowStr := "2020-01-01T00:00:00Z"
    digestOf := fun _ => sampleDigest
    durationFromProto := fun t => .ok t
    run := fun _ => { status := .success, exitCode := 0, err := none }
    flattenFuel := 10 }

/-- An environment whose digest-string parser rejects every input. -/
def badDigestEnv : Env :=
  { okEnv with newFromString := fun _ => .error (.msg "malformed digest") }

/-- An action result whose stdout digest is present. -/
def c2ActionResult : ActionResult :=
  { stdoutDigest := some sampleDigest, stderrDigest := none,
    outputFiles := [], outputDirectories := [] }

/-- An environment in which fetching the action result succeeds but every
output download fails. -/
def failingDownloadEnv : Env :=
  { okEnv with
    checkActionCache := fun _ => .ok (some c2ActionResult)
    downloadActionOutputs := fun _ _ => .error (.msg "download failed")
    readBlob := fun _ => .error (.msg "read failed") }

/-- An environment whose GetTree returns zero directory nodes. -/
def emptyTreeEnv : Env :=
  { okEnv with getDirectoryTree := fun _ => .ok [] }


/-- A tree with two files, used to witness display sortedness. -/
def c3SampleTree : Tree :=
  { root := { files := [{ name := "b.txt", digest := sampleDigest },
                        { name := "a.txt", digest := sampleDigest }],
              directories := [], symlinks := [] }
    children := [] }

/-- The entries flattening `c3SampleTree` produces, in production order. -/
def c3SampleOutputs : List (String × TreeOutput) :=
  [("b.txt", { isEmptyDirectory := false, digest := sampleDigest, symlinkTarget := "" }),
   ("a.txt", { isEmptyDirectory := false, digest := sampleDigest, symlinkTarget := "" })]

/-- The same entries in the opposite iteration order. -/
def c3SampleOutputsSwapped : List (String × TreeOutput) :=
  [("a.txt", { isEmptyDirectory := false, digest := sampleDigest, symlinkTarget := "" }),
   ("b.txt", { isEmptyDirectory := false, digest := sampleDigest, symlinkTarget := "" })]


/-- Digest of the empty directory `b` in the end-to-end example tree. -/
def bDigest : Digest := { hash := "bbb", size := 0 }

/-- Digest of the 10-byte file `a.txt` in the end-to-end example tree. -/
def aDigest : Digest := { hash := "aaa", size := 10 }

/-- The spec's end-to-end example directory: file `a.txt`, empty directory
`b`, symlink `c -> a.txt`. -/
def c6SampleRoot : Directory :=
  { files := [{ name := "a.txt", digest := aDigest }]
    directories := [{ name := "b", digest := bDigest }]
    symlinks := [{ name := "c", target := "a.txt" }] }

/-- Resolution for the example: only `b`'s digest resolves (to the empty
directory). -/
def c6Resolve : Digest → Option Directory :=
  fun dg => if dg = bDigest then some emptyDirectory else none

/-- The flattening of the example directory. -/
def c6Result : List (String × TreeOutput) :=
  [("a.txt", { isEmptyDirectory := false, digest := aDigest, symlinkTarget := "" }),
   ("b", { isEmptyDirectory := true, digest := bDigest, symlinkTarget := "" }),
   ("c", { isEmptyDirectory := false, digest := emptyDigest, symlinkTarget := "a.txt" })]


/-- A sample `time.ParseDuration` oracle: knows "10s" and "0". -/
def c4parse : String → Option Int :=
  fun s => if s = "10s" then some 10000000000 else if s = "0" then some 0 else none

/-- A sample `client.DefaultRPCTimeouts` lookup with a default entry. -/
def c4defaults : String → Option Int :=
  fun k => if k = "default" then some 20000000000 else none

/-- A sample override list setting only `Execute`. -/
def c4rts : List (String × String) := [("Execute", "0")]

/-- An override list whose duration string does not parse. -/
def c4badRts : List (String × String) := [("Execute", "bogus")]

/-- The effective timeout map after applying `c4rts` over `c4defaults`. -/
def c4merged : String → Option Int :=
  fun k => if k = "Execute" then some 0 else c4defaults k

/-! # Theorems -/

/-! ## Chunker round trip (C5) -/

theorem chunkFrom_nil (chunkSize off : Nat) : chunkFrom chunkSize [] off = [] := by
  rw [chunkFrom]
  simp

theorem chunkFrom_cons (chunkSize : Nat) (hcs : 0 < chunkSize) (data : List Nat)
    (hd : data.length ≠ 0) (off : Nat) :
    chunkFrom chunkSize data off =
      { offset := off, payload := data.take chunkSize } ::
        chunkFrom chunkSize (data.drop chunkSize) (off + chunkSize) := by
  rw [chunkFrom]
  rw [if_neg (by omega : ¬(data.length = 0 ∨ chunkSize = 0))]

theorem reassembleAux_chunkFrom (chunkSize : Nat) (hcs : 0 < chunkSize) (total : Nat) :
    ∀ (n : Nat) (data acc : List Nat), data.length ≤ n →
      reassembleAux total acc (chunkFrom chunkSize data acc.length) =
        reassembleAux total (acc ++ data) [] := by
  intro n
  induction n with
  | zero =>
    intro data acc h
    have hdata : data = [] := List.length_eq_zero.mp (Nat.le_zero.mp h)
    subst hdata
    rw [chunkFrom_nil]
    simp [reassembleAux]
  | succ n ih =>
    intro data acc h
    by_cases hd : data.length = 0
    · have hdata : data = [] := List.length_eq_zero.mp hd
      subst hdata
      rw [chunkFrom_nil]
      simp [reassembleAux]
    · rw [chunkFrom_cons chunkSize hcs data hd acc.length]
      by_cases hle : data.length ≤ chunkSize
      · have hdrop : data.drop chunkSize = [] := List.drop_eq_nil_of_le hle
        have htake : data.take chunkSize = data := List.take_of_length_le hle
        rw [hdrop, htake, chunkFrom_nil]
        simp [reassembleAux]
      · have hlen : (acc ++ data.take chunkSize).length = acc.length + chunkSize := by
          simp [List.length_take]
          omega
        have hstep := ih (data.drop chunkSize) (acc ++ data.take chunkSize)
          (by simp [List.length_drop]; omega)
        rw [hlen] at hstep
        have hjoin : acc ++ data.take chunkSize ++ data.drop chunkSize = acc ++ data := by
          rw [List.append_assoc, List.take_append_drop]
        rw [hjoin] at hstep
        simpa [reassembleAux] using hstep

/-- C5: for every blob (including the empty one) and every positive chunk
size, whether or not it divides the blob length, reassembling the chunk
sequence produced by the chunker reproduces the original bytes exactly. -/
theorem c5_chunk_reassemble_round_trip (data : List Nat) (chunkSize : Nat)
    (hcs : 0 < chunkSize) :
    reassemble data.length (chunkBlob data chunkSize) = .ok data := by
  by_cases hd : data.length = 0
  · have hdata : data = [] := List.length_eq_zero.mp hd
    subst hdata
    simp [reassemble, chunkBlob, reassembleAux]
  · have hmain := reassembleAux_chunkFrom chunkSize hcs data.length data.length data [] le_rfl
    simp only [List.nil_append, List.length_nil] at hmain
    rw [reassemble, chunkBlob, if_neg hd, hmain]
    simp [reassembleAux]

theorem c5_chunk_reassemble_round_trip_witness :
    0 < 3 ∧ reassemble ([1, 2, 3, 4, 5, 6, 7, 8] : List Nat).length
      (chunkBlob [1, 2, 3, 4, 5, 6, 7, 8] 3) = .ok [1, 2, 3, 4, 5, 6, 7, 8] :=
  ⟨by decide, c5_chunk_reassemble_round_trip [1, 2, 3, 4, 5, 6, 7, 8] 3 (by decide)⟩

/-! ## The path order is total, transitive, antisymmetric -/

theorem uint32_toNat_inj {a b : UInt32} (h : a.toNat = b.toNat) : a = b := by
  cases a
  cases b
  congr 1
  exact BitVec.eq_of_toNat_eq h

theorem char_toNat_inj {a b : Char} (h : a.toNat = b.toNat) : a = b :=
  Char.eq_of_val_eq (uint32_toNat_inj h)

theorem charListLe_total : ∀ as bs : List Char,
    charListLe as bs = true ∨ charListLe bs as = true := by
  intro as
  induction as with
  | nil => intro bs; left; rfl
  | cons a as ih =>
    intro bs
    cases bs with
    | nil => right; rfl
    | cons b bs =>
      simp only [charListLe]
      rcases Nat.lt_trichotomy a.toNat b.toNat with h | h | h
      · left
        simp [h]
      · have h1 : ¬a.toNat < b.toNat := by omega
        have h2 : ¬b.toNat < a.toNat := by omega
        simpa [h1, h2] using ih bs
      · right
        simp [h]

theorem charListLe_trans : ∀ as bs cs : List Char,
    charListLe as bs = true → charListLe bs cs = true → charListLe as cs = true := by
  intro as
  induction as with
  | nil => intro bs cs _ _; rfl
  | cons a as ih =>
    intro bs cs hab hbc
    cases bs with
    | nil => simp [charListLe] at hab
    | cons b bs =>
      cases cs with
      | nil => simp [charListLe] at hbc
      | cons c cs =>
        simp only [charListLe] at hab hbc ⊢
        by_cases h1 : a.toNat < b.toNat
        · by_cases h2 : b.toNat < c.toNat
          · rw [if_pos (by omega : a.toNat < c.toNat)]
          · by_cases h3 : c.toNat < b.toNat
            · rw [if_neg h2, if_pos h3] at hbc
              exact absurd hbc (by simp)
            · rw [if_pos (by omega : a.toNat < c.toNat)]
        · by_cases h2 : b.toNat < a.toNat
          · rw [if_neg h1, if_pos h2] at hab
            exact absurd hab (by simp)
          · rw [if_neg h1, if_neg h2] at hab
            by_cases h3 : b.toNat < c.toNat
            · rw [if_pos (by omega : a.toNat < c.toNat)]
            · by_cases h4 : c.toNat < b.toNat
              · rw [if_neg h3, if_pos h4] at hbc
                exact absurd hbc (by simp)
              · rw [if_neg h3, if_neg h4] at hbc
                rw [if_neg (by omega : ¬a.toNat < c.toNat),
                  if_neg (by omega : ¬c.toNat < a.toNat)]
                exact ih bs cs hab hbc

theorem charListLe_antisymm : ∀ as bs : List Char,
    charListLe as bs = true → charListLe bs as = true → as = bs := by
  intro as
  induction as with
  | nil =>
    intro bs _ hba
    cases bs with
    | nil => rfl
    | cons b bs => simp [charListLe] at hba
  | cons a as ih =>
    intro bs hab hba
    cases bs with
    | nil => simp [charListLe] at hab
    | cons b bs =>
      simp only [charListLe] at hab hba
      by_cases h1 : a.toNat < b.toNat
      · rw [if_neg (by omega : ¬b.toNat < a.toNat), if_pos h1] at hba
        simp at hba
      · by_cases h2 : b.toNat < a.toNat
        · rw [if_neg h1, if_pos h2] at hab
          simp at hab
        · rw [if_neg h1, if_neg h2] at hab
          rw [if_neg h2, if_neg h1] at hba
          have hhead : a = b := char_toNat_inj (by omega)
          rw [hhead, ih bs hab hba]

/-! ## Display determinism and sortedness (C3) -/

theorem string_eq_of_data_eq {s t : String} (h : s.data = t.data) : s = t := by
  cases s
  cases t
  exact congrArg String.mk h

theorem lookupPath_perm : ∀ {l₁ l₂ : List (String × TreeOutput)}, l₁.Perm l₂ →
    (l₁.map Prod.fst).Nodup → ∀ p, lookupPath l₁ p = lookupPath l₂ p := by
  intro l₁ l₂ h
  induction h with
  | nil => intro _ p; rfl
  | cons x h ih =>
    intro nd p
    obtain ⟨k, v⟩ := x
    simp only [List.map_cons, List.nodup_cons] at nd
    simp only [lookupPath]
    by_cases hk : k = p
    · simp [hk]
    · simp only [if_neg hk]
      exact ih nd.2 p
  | swap x y l =>
    intro nd p
    obtain ⟨k₁, v₁⟩ := x
    obtain ⟨k₂, v₂⟩ := y
    simp only [List.map_cons, List.nodup_cons, List.mem_cons] at nd
    have hne : k₂ ≠ k₁ := fun hc => nd.1 (Or.inl hc)
    simp only [lookupPath]
    by_cases h1 : k₂ = p <;> by_cases h2 : k₁ = p
    · exact absurd (h1.trans h2.symm) hne
    · simp [h1, h2]
    · simp [h1, h2]
    · simp [h1, h2]
  | trans h₁ h₂ ih₁ ih₂ =>
    intro nd p
    rw [ih₁ nd p, ih₂ ((h₁.map Prod.fst).nodup_iff.mp nd) p]

theorem sortedPaths_sorted (l : List (String × TreeOutput)) :
    List.Sorted PathLe (sortedPaths l) := by
  haveI : IsTotal String PathLe := ⟨fun a b => charListLe_total a.data b.data⟩
  haveI : IsTrans String PathLe := ⟨fun a b c => charListLe_trans a.data b.data c.data⟩
  exact List.sorted_insertionSort PathLe (l.map Prod.fst)

theorem sortedPaths_perm_eq {l₁ l₂ : List (String × TreeOutput)} (h : l₁.Perm l₂) :
    sortedPaths l₁ = sortedPaths l₂ := by
  haveI : IsAntisymm String PathLe :=
    ⟨fun a b hab hba => string_eq_of_data_eq (charListLe_antisymm a.data b.data hab hba)⟩
  exact List.eq_of_perm_of_sorted
    ((List.perm_insertionSort PathLe (l₁.map Prod.fst)).trans
      ((h.map Prod.fst).trans (List.perm_insertionSort PathLe (l₂.map Prod.fst)).symm))
    (sortedPaths_sorted l₁) (sortedPaths_sorted l₂)

/-- C3: the flattened output is displayed in lexicographic path order, and
the result is a function of the entry set alone: any two iteration orders of
the underlying Go map (modelled as permutations of the entry list, with
paths unique) produce identical rendered output and identical path lists. -/
theorem c3_flatten_display_lexicographic_deterministic :
    (∀ (digestOf : Directory → Digest) (fuel : Nat) (t : Tree) (s : String)
        (paths : List String), flattenTree digestOf fuel t = .ok (s, paths) →
        List.Sorted PathLe paths)
    ∧ ∀ l₁ l₂ : List (String × TreeOutput), l₁.Perm l₂ → (l₁.map Prod.fst).Nodup →
        displayOutputs l₁ = displayOutputs l₂ ∧ sortedPaths l₁ = sortedPaths l₂ := by
  constructor
  · intro digestOf fuel t s paths hok
    rw [flattenTree] at hok
    cases hft : FlattenTree digestOf fuel t with
    | error e => rw [hft] at hok; exact absurd hok (by simp)
    | ok outputs =>
      rw [hft] at hok
      have hpaths : paths = sortedPaths outputs := by
        have := hok
        simp only [Except.ok.injEq, Prod.mk.injEq] at this
        exact this.2.symm
      rw [hpaths]
      exact sortedPaths_sorted outputs
  · intro l₁ l₂ h nd
    refine ⟨?_, sortedPaths_perm_eq h⟩
    unfold displayOutputs
    rw [sortedPaths_perm_eq h]
    congr 1
    apply List.map_congr_left
    intro p _
    rw [lookupPath_perm h nd p]

theorem c3_flatten_display_lexicographic_deterministic_witness :
    List.Sorted PathLe (sortedPaths c3SampleOutputs) ∧
    displayOutputs c3SampleOutputs = displayOutputs c3SampleOutputsSwapped := by
  constructor
  · exact c3_flatten_display_lexicographic_deterministic.1 (fun _ => sampleDigest) 1
      c3SampleTree (displayOutputs c3SampleOutputs) (sortedPaths c3SampleOutputs) rfl
  · exact (c3_flatten_display_lexicographic_deterministic.2 c3SampleOutputs
      c3SampleOutputsSwapped (by decide) (by decide)).1

/-! ## Path structure of flattened entries (toward C6, C7) -/

theorem pathJoin_data {p : String} (n : String) (hp : p ≠ "") :
    (pathJoin p n).data = p.data ++ '/' :: n.data := by
  rw [pathJoin, if_neg hp]
  have h1 : (p ++ "/" ++ n).data = p.data ++ ("/" : String).data ++ n.data := by
    rw [String.data_append, String.data_append]
  simpa using h1

theorem pathJoin_ne_empty {p n : String} (h : p ≠ "" ∨ n ≠ "") : pathJoin p n ≠ "" := by
  by_cases hp : p = ""
  · subst hp
    rw [pathJoin, if_pos rfl]
    exact h.resolve_left (by simp)
  · intro hc
    have hd : (pathJoin p n).data = ("" : String).data := congrArg String.data hc
    rw [pathJoin_data n hp] at hd
    simp at hd

theorem pathJoin_inj_name {p a b : String} (h : pathJoin p a = pathJoin p b) : a = b := by
  by_cases hp : p = ""
  · subst hp
    rw [pathJoin, if_pos rfl, pathJoin, if_pos rfl] at h
    exact h
  · have hd := congrArg String.data h
    rw [pathJoin_data a hp, pathJoin_data b hp] at hd
    have := List.append_cancel_left hd
    exact string_eq_of_data_eq (by simpa using this)

theorem path_ext_ne_target {p nameA nameB : String} (hb : slashFree nameB)
    (r : List Char) (x : String) (hx : x.data = (pathJoin p nameA).data ++ '/' :: r) :
    x ≠ pathJoin p nameB := by
  intro hc
  have hd : (pathJoin p nameB).data = (pathJoin p nameA).data ++ '/' :: r := by
    rw [← hc, ← hx]
  by_cases hp : p = ""
  · subst hp
    rw [pathJoin, if_pos rfl, pathJoin, if_pos rfl] at hd
    exact hb (by rw [hd]; exact List.mem_append_right _ (List.mem_cons_self _ _))
  · rw [pathJoin_data nameB hp, pathJoin_data nameA hp] at hd
    rw [List.append_assoc, List.cons_append] at hd
    have hcancel := List.append_cancel_left hd
    have htail : nameB.data = nameA.data ++ '/' :: r := by simpa using hcancel
    exact hb (by rw [htail]; exact List.mem_append_right _ (List.mem_cons_self _ _))

theorem flattenSubdirs_cons_ok {resolve : Digest → Option Directory}
    {flat : Directory → String → Except Err (List (String × TreeOutput))}
    {dn : DirNode} {rest : List DirNode} {p : String} {l : List (String × TreeOutput)}
    (hok : flattenSubdirs resolve flat (dn :: rest) p = .ok l) :
    ∃ sub here there, resolve dn.digest = some sub ∧
      (if isEmptyDir sub = true then
        Except.ok [(pathJoin p dn.name, (⟨true, dn.digest, ""⟩ : TreeOutput))]
       else flat sub (pathJoin p dn.name)) = .ok here ∧
      flattenSubdirs resolve flat rest p = .ok there ∧ l = here ++ there := by
  simp only [flattenSubdirs] at hok
  cases hres : resolve dn.digest with
  | none =>
    simp only [hres] at hok
    exact absurd hok (by simp)
  | some sub =>
    simp only [hres] at hok
    cases hhere : (if isEmptyDir sub = true then
        Except.ok [(pathJoin p dn.name, (⟨true, dn.digest, ""⟩ : TreeOutput))]
       else flat sub (pathJoin p dn.name)) with
    | error e' =>
      simp only [hhere] at hok
      exact absurd hok (by simp)
    | ok here =>
      simp only [hhere] at hok
      cases hrest : flattenSubdirs resolve flat rest p with
      | error e' =>
        simp only [hrest] at hok
        exact absurd hok (by simp)
      | ok there =>
        simp only [hrest] at hok
        exact ⟨sub, here, there, rfl, hhere, rfl, by simpa using hok.symm⟩

theorem flattenAux_succ_ok {resolve : Digest → Option Directory} {fuel : Nat}
    {d : Directory} {p : String} {l : List (String × TreeOutput)}
    (hok : flattenAux resolve (fuel + 1) d p = .ok l) :
    ∃ subs, flattenSubdirs resolve (flattenAux resolve fuel) d.directories p = .ok subs ∧
      l = (d.files.map fun f => (pathJoin p f.name, (⟨false, f.digest, ""⟩ : TreeOutput)))
        ++ subs
        ++ (d.symlinks.map fun s =>
              (pathJoin p s.name, (⟨false, emptyDigest, s.target⟩ : TreeOutput))) := by
  simp only [flattenAux] at hok
  cases hsub : flattenSubdirs resolve (flattenAux resolve fuel) d.directories p with
  | error e' =>
    simp only [hsub] at hok
    exact absurd hok (by simp)
  | ok subs =>
    simp only [hsub] at hok
    exact ⟨subs, rfl, by simpa using hok.symm⟩

theorem flattenSubdirs_shape (resolve : Digest → Option Directory)
    (flat : Directory → String → Except Err (List (String × TreeOutput)))
    (hflat : ∀ (sub : Directory) (q' : String) (l' : List (String × TreeOutput)),
      q' ≠ "" → flat sub q' = .ok l' → ∀ e ∈ l', ∃ r : List Char,
        e.1.data = q'.data ++ '/' :: r) :
    ∀ (dns : List DirNode) (q : String) (l : List (String × TreeOutput)), q ≠ "" →
      flattenSubdirs resolve flat dns q = .ok l → ∀ e ∈ l, ∃ r : List Char,
        e.1.data = q.data ++ '/' :: r := by
  intro dns
  induction dns with
  | nil =>
    intro q l _ hok e he
    simp only [flattenSubdirs] at hok
    obtain rfl : ([] : List (String × TreeOutput)) = l := by simpa using hok
    simp at he
  | cons dn rest ih =>
    intro q l hq hok e he
    obtain ⟨sub, here, there, _hres, hhere, hrest, rfl⟩ := flattenSubdirs_cons_ok hok
    rcases List.mem_append.mp he with he | he
    · by_cases hemp : isEmptyDir sub = true
      · rw [if_pos hemp] at hhere
        obtain rfl : [(pathJoin q dn.name, (⟨true, dn.digest, ""⟩ : TreeOutput))] = here := by
          simpa using hhere
        obtain rfl : e = (pathJoin q dn.name, (⟨true, dn.digest, ""⟩ : TreeOutput)) := by
          simpa using he
        exact ⟨dn.name.data, pathJoin_data dn.name hq⟩
      · rw [if_neg hemp] at hhere
        obtain ⟨r', hr'⟩ := hflat sub (pathJoin q dn.name) here
          (pathJoin_ne_empty (Or.inl hq)) hhere e he
        refine ⟨dn.name.data ++ '/' :: r', ?_⟩
        rw [hr', pathJoin_data dn.name hq]
        simp
    · exact ih q there hq hrest e he

theorem flattenAux_shape (resolve : Digest → Option Directory) :
    ∀ (fuel : Nat) (d : Directory) (q : String) (l : List (String × TreeOutput)),
      q ≠ "" → flattenAux resolve fuel d q = .ok l → ∀ e ∈ l, ∃ r : List Char,
        e.1.data = q.data ++ '/' :: r := by
  intro fuel
  induction fuel with
  | zero =>
    intro d q l _ hok
    simp [flattenAux] at hok
  | succ fuel ih =>
    intro d q l hq hok e he
    obtain ⟨subs, hsub, rfl⟩ := flattenAux_succ_ok hok
    rcases List.mem_append.mp he with he | he
    · rcases List.mem_append.mp he with he | he
      · obtain ⟨f, _, rfl⟩ := List.mem_map.mp he
        exact ⟨f.name.data, pathJoin_data f.name hq⟩
      · exact flattenSubdirs_shape resolve (flattenAux resolve fuel)
          (fun sub q' l' hq' hok' => ih sub q' l' hq' hok')
          d.directories q subs hq hsub e he
    · obtain ⟨s, _, rfl⟩ := List.mem_map.mp he
      exact ⟨s.name.data, pathJoin_data s.name hq⟩

/-! ## Empty directories appear exactly once (C6) -/

theorem head_count_zero
    {flat : Directory → String → Except Err (List (String × TreeOutput))}
    (hflat : ∀ (sub : Directory) (q' : String) (l' : List (String × TreeOutput)),
      q' ≠ "" → flat sub q' = .ok l' → ∀ e ∈ l', ∃ r : List Char,
        e.1.data = q'.data ++ '/' :: r)
    (dn : DirNode) (hslash : slashFree dn.name)
    {dn' : DirNode} {p : String} {sub' : Directory} {here : List (String × TreeOutput)}
    (hne : dn'.name ≠ dn.name) (hor : p ≠ "" ∨ dn'.name ≠ "")
    (hhere : (if isEmptyDir sub' = true then
        Except.ok [(pathJoin p dn'.name, (⟨true, dn'.digest, ""⟩ : TreeOutput))]
       else flat sub' (pathJoin p dn'.name)) = .ok here) :
    List.countP (fun e => decide (e.1 = pathJoin p dn.name)) here = 0 := by
  apply List.countP_eq_zero.mpr
  intro a ha
  simp only [decide_eq_true_eq]
  by_cases hemp : isEmptyDir sub' = true
  · rw [if_pos hemp] at hhere
    obtain rfl : [(pathJoin p dn'.name, (⟨true, dn'.digest, ""⟩ : TreeOutput))] = here := by
      simpa using hhere
    obtain rfl : a = (pathJoin p dn'.name, (⟨true, dn'.digest, ""⟩ : TreeOutput)) := by
      simpa using ha
    exact fun hc => hne (pathJoin_inj_name hc)
  · rw [if_neg hemp] at hhere
    obtain ⟨r, hr⟩ := hflat sub' (pathJoin p dn'.name) here (pathJoin_ne_empty hor) hhere a ha
    exact path_ext_ne_target hslash r a.1 hr

theorem flattenSubdirs_count_zero {resolve : Digest → Option Directory}
    {flat : Directory → String → Except Err (List (String × TreeOutput))}
    (hflat : ∀ (sub : Directory) (q' : String) (l' : List (String × TreeOutput)),
      q' ≠ "" → flat sub q' = .ok l' → ∀ e ∈ l', ∃ r : List Char,
        e.1.data = q'.data ++ '/' :: r)
    (dn : DirNode) (hslash : slashFree dn.name) :
    ∀ (dns : List DirNode) (p : String) (l : List (String × TreeOutput)),
      (∀ x ∈ dns, x.name ≠ dn.name) → (∀ x ∈ dns, x.name ≠ "") →
      flattenSubdirs resolve flat dns p = .ok l →
      List.countP (fun e => decide (e.1 = pathJoin p dn.name)) l = 0 := by
  intro dns
  induction dns with
  | nil =>
    intro p l _ _ hok
    simp only [flattenSubdirs] at hok
    obtain rfl : ([] : List (String × TreeOutput)) = l := by simpa using hok
    rfl
  | cons dn' rest ih =>
    intro p l hne hnames hok
    obtain ⟨sub', here, there, _hres, hhere, hrest, rfl⟩ := flattenSubdirs_cons_ok hok
    rw [List.countP_append]
    have hor : p ≠ "" ∨ dn'.name ≠ "" := by
      by_cases hp : p = ""
      · exact Or.inr (hnames dn' (List.mem_cons_self _ _))
      · exact Or.inl hp
    rw [head_count_zero hflat dn hslash (hne dn' (List.mem_cons_self _ _)) hor hhere]
    rw [ih p there (fun x hx => hne x (List.mem_cons_of_mem _ hx))
      (fun x hx => hnames x (List.mem_cons_of_mem _ hx)) hrest]

theorem flattenSubdirs_count_one {resolve : Digest → Option Directory}
    {flat : Directory → String → Except Err (List (String × TreeOutput))}
    (hflat : ∀ (sub : Directory) (q' : String) (l' : List (String × TreeOutput)),
      q' ≠ "" → flat sub q' = .ok l' → ∀ e ∈ l', ∃ r : List Char,
        e.1.data = q'.data ++ '/' :: r)
    (dn : DirNode) {sub : Directory}
    (hres : resolve dn.digest = some sub) (hempty : isEmptyDir sub = true)
    (hslash : slashFree dn.name) :
    ∀ (dns : List DirNode) (p : String) (l : List (String × TreeOutput)),
      (dns.map DirNode.name).Nodup → (∀ x ∈ dns, x.name ≠ "") → dn ∈ dns →
      flattenSubdirs resolve flat dns p = .ok l →
      List.countP (fun e => decide (e.1 = pathJoin p dn.name)) l = 1 ∧
        (pathJoin p dn.name, (⟨true, dn.digest, ""⟩ : TreeOutput)) ∈ l := by
  intro dns
  induction dns with
  | nil =>
    intro p l _ _ hmem
    exact absurd hmem (by simp)
  | cons dn' rest ih =>
    intro p l hnodup hnames hmem hok
    obtain ⟨sub', here, there, hres', hhere, hrest, rfl⟩ := flattenSubdirs_cons_ok hok
    simp only [List.map_cons, List.nodup_cons] at hnodup
    rcases List.mem_cons.mp hmem with hcase | hcase
    · subst hcase
      rw [hres] at hres'
      obtain rfl : sub = sub' := by simpa using hres'
      rw [if_pos hempty] at hhere
      obtain rfl : [(pathJoin p dn.name, (⟨true, dn.digest, ""⟩ : TreeOutput))] = here := by
        simpa using hhere
      constructor
      · rw [List.countP_append]
        have hzero := flattenSubdirs_count_zero hflat dn hslash rest p there
          (fun x hx hc => hnodup.1 (hc ▸ List.mem_map_of_mem DirNode.name hx))
          (fun x hx => hnames x (List.mem_cons_of_mem _ hx)) hrest
        rw [hzero]
        simp
      · exact List.mem_append_left _ (List.mem_singleton.mpr rfl)
    · have hne : dn'.name ≠ dn.name := by
        intro hc
        exact hnodup.1 (hc ▸ List.mem_map_of_mem DirNode.name hcase)
      have hor : p ≠ "" ∨ dn'.name ≠ "" := by
        by_cases hp : p = ""
        · exact Or.inr (hnames dn' (List.mem_cons_self _ _))
        · exact Or.inl hp
      obtain ⟨hcount, hmem'⟩ := ih p there hnodup.2
        (fun x hx => hnames x (List.mem_cons_of_mem _ hx)) hcase hrest
      constructor
      · rw [List.countP_append, head_count_zero hflat dn hslash hne hor hhere, hcount]
      · exact List.mem_append_right _ hmem'

/-- C6: in every flattened directory containing an empty subdirectory (with
well-formed child names: unique within the node, non-empty, and the empty
directory's own name slash-free), the result contains exactly one entry at
that subdirectory's path, and that entry is of empty-directory kind with the
subdirectory's digest — the empty directory is never omitted. -/
theorem c6_empty_directory_exactly_once
    (resolve : Digest → Option Directory) (fuel : Nat) (d : Directory) (p : String)
    (dn : DirNode) (sub : Directory) (l : List (String × TreeOutput))
    (hmem : dn ∈ d.directories) (hres : resolve dn.digest = some sub)
    (hempty : isEmptyDir sub = true) (hnodup : (allNames d).Nodup)
    (hnames : ∀ n ∈ allNames d, n ≠ "") (hslash : slashFree dn.name)
    (hok : flattenAux resolve fuel d p = .ok l) :
    List.countP (fun e => decide (e.1 = pathJoin p dn.name)) l = 1 ∧
      (pathJoin p dn.name, (⟨true, dn.digest, ""⟩ : TreeOutput)) ∈ l := by
  cases fuel with
  | zero => simp [flattenAux] at hok
  | succ fuel =>
    obtain ⟨subs, hsub, rfl⟩ := flattenAux_succ_ok hok
    have hflat := fun sub q' l' hq' hok' =>
      flattenAux_shape resolve fuel sub q' l' hq' hok'
    have hdnName : dn.name ∈ d.directories.map DirNode.name :=
      List.mem_map_of_mem _ hmem
    have h1 := List.nodup_append.mp (by simpa [allNames, List.append_assoc] using hnodup)
    have h2 := List.nodup_append.mp h1.2.1
    have hfilesNe : ∀ f ∈ d.files, f.name ≠ dn.name := by
      intro f hf hc
      exact (List.disjoint_left.mp h1.2.2) (List.mem_map_of_mem _ hf)
        (List.mem_append_left _ (hc ▸ hdnName))
    have hsymsNe : ∀ s ∈ d.symlinks, s.name ≠ dn.name := by
      intro s hs hc
      exact (List.disjoint_left.mp h2.2.2) hdnName (hc ▸ List.mem_map_of_mem _ hs)
    have hdirNames : ∀ x ∈ d.directories, x.name ≠ "" := by
      intro x hx
      exact hnames x.name (by
        simp only [allNames]
        exact List.mem_append_left _ (List.mem_append_right _ (List.mem_map_of_mem _ hx)))
    obtain ⟨hcount, hmem'⟩ := flattenSubdirs_count_one hflat dn hres hempty hslash
      d.directories p subs h2.1 hdirNames hmem hsub
    constructor
    · rw [List.countP_append, List.countP_append]
      have hfiles0 : List.countP (fun e => decide (e.1 = pathJoin p dn.name))
          (d.files.map fun f => (pathJoin p f.name,
            (⟨false, f.digest, ""⟩ : TreeOutput))) = 0 := by
        apply List.countP_eq_zero.mpr
        intro a ha
        obtain ⟨f, hf, rfl⟩ := List.mem_map.mp ha
        simp only [decide_eq_true_eq]
        exact fun hc => hfilesNe f hf (pathJoin_inj_name hc)
      have hsyms0 : List.countP (fun e => decide (e.1 = pathJoin p dn.name))
          (d.symlinks.map fun s => (pathJoin p s.name,
            (⟨false, emptyDigest, s.target⟩ : TreeOutput))) = 0 := by
        apply List.countP_eq_zero.mpr
        intro a ha
        obtain ⟨s, hs, rfl⟩ := List.mem_map.mp ha
        simp only [decide_eq_true_eq]
        exact fun hc => hsymsNe s hs (pathJoin_inj_name hc)
      rw [hfiles0, hcount, hsyms0]
    · exact List.mem_append_left _ (List.mem_append_right _ hmem')

theorem c6_empty_directory_exactly_once_witness :
    List.countP (fun e => decide (e.1 = pathJoin "" "b")) c6Result = 1 ∧
      (pathJoin "" "b", (⟨true, bDigest, ""⟩ : TreeOutput)) ∈ c6Result :=
  c6_empty_directory_exactly_once c6Resolve 2 c6SampleRoot ""
    { name := "b", digest := bDigest } emptyDirectory c6Result
    (by simp [c6SampleRoot]) rfl rfl (by decide) (by decide) (by decide) rfl

/-! ## Symlinks carry their literal target (C7) -/

/-- C7: every symlink child of a flattened directory appears in the result
with its literal target string unchanged (the flattener never dereferences
it), and the display renders that literal target verbatim. -/
theorem c7_symlink_literal_target :
    (∀ (resolve : Digest → Option Directory) (fuel : Nat) (d : Directory) (p : String)
        (l : List (String × TreeOutput)) (s : SymlinkNode),
        flattenAux resolve (fuel + 1) d p = .ok l → s ∈ d.symlinks →
        (pathJoin p s.name, (⟨false, emptyDigest, s.target⟩ : TreeOutput)) ∈ l)
    ∧ ∀ (path : String) (dg : Digest) (tgt : String), tgt ≠ "" →
        renderOutput path ⟨false, dg, tgt⟩ =
          path ++ ": [Symlink digest: " ++ digestStr dg ++ ", Symlink Target: " ++
            tgt ++ "]\n" := by
  constructor
  · intro resolve fuel d p l s hok hs
    obtain ⟨subs, hsub, rfl⟩ := flattenAux_succ_ok hok
    exact List.mem_append_right _ (List.mem_map_of_mem _ hs)
  · intro path dg tgt htgt
    simp [renderOutput, htgt]

theorem c7_symlink_literal_target_witness :
    (pathJoin "" "c", (⟨false, emptyDigest, "a.txt"⟩ : TreeOutput)) ∈ c6Result ∧
      renderOutput "c" ⟨false, emptyDigest, "a.txt"⟩ =
        "c" ++ ": [Symlink digest: " ++ digestStr emptyDigest ++ ", Symlink Target: " ++
          "a.txt" ++ "]\n" :=
  ⟨c7_symlink_literal_target.1 c6Resolve 1 c6SampleRoot "" c6Result
      { name := "c", target := "a.txt" } rfl (by simp [c6SampleRoot]),
    c7_symlink_literal_target.2 "c" emptyDigest "a.txt" (by decide)⟩

/-! ## Unresolvable trees fail, and the failure propagates (C8) -/

theorem flattenSubdirs_missing {resolve : Digest → Option Directory}
    {flat : Directory → String → Except Err (List (String × TreeOutput))}
    (dn : DirNode) (hres : resolve dn.digest = none) :
    ∀ (dns : List DirNode) (p : String), dn ∈ dns →
      isErr (flattenSubdirs resolve flat dns p) = true := by
  intro dns
  induction dns with
  | nil =>
    intro p h
    exact absurd h (by simp)
  | cons dn' rest ih =>
    intro p hmem
    cases hout : flattenSubdirs resolve flat (dn' :: rest) p with
    | error e => rfl
    | ok l =>
      exfalso
      obtain ⟨sub', here, there, hres', hhere, hrest, rfl⟩ := flattenSubdirs_cons_ok hout
      rcases List.mem_cons.mp hmem with hcase | hcase
      · subst hcase
        rw [hres] at hres'
        exact absurd hres' (by simp)
      · have hrec := ih p hcase
        rw [hrest] at hrec
        exact absurd hrec (by simp [isErr])

theorem flattenAux_missing (resolve : Digest → Option Directory) (fuel : Nat)
    (d : Directory) (p : String) (dn : DirNode) (hmem : dn ∈ d.directories)
    (hres : resolve dn.digest = none) :
    isErr (flattenAux resolve (fuel + 1) d p) = true := by
  simp only [flattenAux]
  have h := @flattenSubdirs_missing resolve (flattenAux resolve fuel) dn hres
    d.directories p hmem
  cases hs : flattenSubdirs resolve (flattenAux resolve fuel) d.directories p with
  | error e => rfl
  | ok subs =>
    rw [hs] at h
    exact absurd h (by simp [isErr])

/-- C8: when the directory nodes of a root cannot be resolved the tree
operations fail rather than proceeding: (1) a GetTree answer of zero
directory nodes makes `getInputTree` return an error; (2) a subdirectory
digest that does not resolve makes the flattener return an error
(MissingNode); (3) and (4): `ShowAction` and `ReexecuteAction` propagate a
`getInputTree` error instead of continuing with an empty or partial tree. -/
theorem c8_unresolved_tree_fails :
    (∀ (env : Env) (root : Option Digest) (dg : Digest),
      env.newFromProto root = .ok dg → env.getDirectoryTree root = .ok [] →
      (getInputTree env root).1 =
        .error (.msg ("Empty directories returned by GetTree for " ++ digestStr dg)))
    ∧ (∀ (resolve : Digest → Option Directory) (fuel : Nat) (d : Directory) (p : String)
        (dn : DirNode), dn ∈ d.directories → resolve dn.digest = none →
        isErr (flattenAux resolve (fuel + 1) d p) = true)
    ∧ (∀ (env : Env) (ad : String) (res : ActionResult) (tr : List Event) (acDg : Digest)
        (act : Action) (cmdDg : Digest) (cmdPb : CommandPb) (e : Err) (tr' : List Event),
        getActionResult env ad = (.ok res, tr) →
        env.newFromString ad = .ok acDg →
        env.readActionProto acDg = .ok act →
        env.newFromProto act.commandDigest = .ok cmdDg →
        env.readCommandProto cmdDg = .ok cmdPb →
        getInputTree env act.inputRootDigest = (.error e, tr') →
        (ShowAction env ad).1 = .error e)
    ∧ ∀ (env : Env) (ad ir : String) (acDg : Digest) (act : Action) (cmdDg : Digest)
        (cmdPb : CommandPb) (e : Err) (tr' : List Event),
        env.newFromString ad = .ok acDg →
        env.readActionProto acDg = .ok act →
        env.newFromProto act.commandDigest = .ok cmdDg →
        env.readCommandProto cmdDg = .ok cmdPb →
        getInputTree env act.inputRootDigest = (.error e, tr') →
        (ReexecuteAction env ad ir).1 = .error e := by
  refine ⟨?_, ?_, ?_, ?_⟩
  · intro env root dg h1 h2
    simp only [getInputTree, h1, h2]
  · intro resolve fuel d p dn hmem hres
    exact flattenAux_missing resolve fuel d p dn hmem hres
  · intro env ad res tr acDg act cmdDg cmdPb e tr' h1 h2 h3 h4 h5 h6
    simp only [ShowAction, h1, h2, h3, h4, h5, h6]
  · intro env ad ir acDg act cmdDg cmdPb e tr' h1 h2 h3 h4 h5
    simp only [ReexecuteAction, h1, h2, h3, h4, h5]

theorem c8_unresolved_tree_fails_witness :
    (getInputTree emptyTreeEnv (some sampleDigest)).1 =
      .error (.msg ("Empty directories returned by GetTree for " ++ digestStr sampleDigest))
    ∧ isErr (flattenAux (fun _ => none) 1 c6SampleRoot "") = true
    ∧ (ShowAction emptyTreeEnv "x").1 =
      .error (.msg ("Empty directories returned by GetTree for " ++ digestStr sampleDigest))
    ∧ (ReexecuteAction emptyTreeEnv "x" "/tmp/root").1 =
      .error (.msg ("Empty directories returned by GetTree for " ++ digestStr sampleDigest)) :=
  ⟨c8_unresolved_tree_fails.1 emptyTreeEnv (some sampleDigest) sampleDigest rfl rfl,
    c8_unresolved_tree_fails.2.1 (fun _ => none) 0 c6SampleRoot ""
      { name := "b", digest := bDigest } (by simp [c6SampleRoot]) rfl,
    c8_unresolved_tree_fails.2.2.1 emptyTreeEnv "x" sampleActionResult
      [.net "GetActionResult"] sampleDigest sampleAction sampleDigest sampleCommandPb
      (.msg ("Empty directories returned by GetTree for " ++ digestStr sampleDigest))
      [.net "GetTree"] rfl rfl rfl rfl rfl rfl,
    c8_unresolved_tree_fails.2.2.2 emptyTreeEnv "x" "/tmp/root" sampleDigest sampleAction
      sampleDigest sampleCommandPb
      (.msg ("Empty directories returned by GetTree for " ++ digestStr sampleDigest))
      [.net "GetTree"] rfl rfl rfl rfl rfl⟩

/-! ## Malformed digests: what runs before the parse (C1, C9) -/

/-- C1 counterexample: with a parser that rejects the digest string,
`DownloadDirectory` still removes and recreates the destination before
failing — disk activity happens before the synchronous rejection, so the
claim is false for `DownloadDirectory`. -/
theorem c1_counterexample :
    (DownloadDirectory badDigestEnv "not-a-digest" "/tmp/dest").1 =
      .error (.msg "malformed digest") ∧
    (DownloadDirectory badDigestEnv "not-a-digest" "/tmp/dest").2 =
      [Event.removeAll "/tmp/dest", Event.mkdir "/tmp/dest"] :=
  ⟨rfl, rfl⟩

/-- C1 (amended): on a malformed digest string, `ReexecuteAction`,
`DownloadActionResult`, `ShowAction`, and `DownloadBlob` with a non-empty
path fail synchronously with no network or disk events at all;
`DownloadBlob` with an empty path first creates (and on exit removes) a
temporary file; `DownloadDirectory` first removes and recreates the
destination. -/
theorem c1_malformed_digest_rejected (env : Env) (ds ir p : String) (e : Err)
    (h : env.newFromString ds = .error e) (hp : p ≠ "") :
    ReexecuteAction env ds ir = (.error e, []) ∧
    DownloadActionResult env ds p = (.error e, []) ∧
    ShowAction env ds = (.error e, []) ∧
    DownloadBlob env ds p = (.error e, []) ∧
    DownloadDirectory env ds p = (.error e, [.removeAll p, .mkdir p]) ∧
    ∀ tmp, env.tempFile = .ok tmp →
      DownloadBlob env ds "" = (.error e, [.createTemp tmp, .fsRemove tmp]) := by
  have hgar : getActionResult env ds = (.error e, []) := by
    simp only [getActionResult, h]
  refine ⟨?_, ?_, ?_, ?_, ?_, ?_⟩
  · simp only [ReexecuteAction, h]
  · simp only [DownloadActionResult, hgar]
  · simp only [ShowAction, hgar]
  · simp only [DownloadBlob, if_neg hp, h]
  · simp only [DownloadDirectory, h]
  · intro tmp htmp
    simp [DownloadBlob, htmp, h]

theorem c1_malformed_digest_rejected_witness :
    ReexecuteAction badDigestEnv "xyz" "/r" = (.error (.msg "malformed digest"), []) ∧
    DownloadActionResult badDigestEnv "xyz" "/tmp/out" =
      (.error (.msg "malformed digest"), []) ∧
    DownloadBlob badDigestEnv "xyz" "" = (.error (.msg "malformed digest"),
      [.createTemp "/tmp/blob123", .fsRemove "/tmp/blob123"]) :=
  ⟨(c1_malformed_digest_rejected badDigestEnv "xyz" "/r" "/tmp/out"
      (.msg "malformed digest") rfl (by decide)).1,
   (c1_malformed_digest_rejected badDigestEnv "xyz" "/r" "/tmp/out"
      (.msg "malformed digest") rfl (by decide)).2.1,
   (c1_malformed_digest_rejected badDigestEnv "xyz" "/r" "/tmp/out"
      (.msg "malformed digest") rfl (by decide)).2.2.2.2.2 "/tmp/blob123" rfl⟩

theorem getActionResult_trace_net (env : Env) (ad : String) :
    ∀ ev ∈ (getActionResult env ad).2, isFsEvent ev = false := by
  simp only [getActionResult]
  cases h1 : env.newFromString ad with
  | error e => simp [h1]
  | ok acDg =>
    cases h2 : env.checkActionCache acDg with
    | error e => simp [h1, h2, isFsEvent]
    | ok o =>
      cases o with
      | none => simp [h1, h2, isFsEvent]
      | some r => simp [h1, h2, isFsEvent]

/-- C9 counterexample: with a malformed digest, `DownloadActionResult` fails
while performing no filesystem event at all — the destination is not deleted
and recreated, contradicting the claim that the cleanup happens "even if the
digest is invalid" for both operations. -/
theorem c9_counterexample :
    (DownloadActionResult badDigestEnv "not-a-digest" "/tmp/dest").1 =
      .error (.msg "malformed digest") ∧
    (DownloadActionResult badDigestEnv "not-a-digest" "/tmp/dest").2 = [] :=
  ⟨rfl, rfl⟩

/-- C9 (amended): `DownloadDirectory` always deletes and recreates the
destination as its first two events, before the digest is even parsed;
`DownloadActionResult` deletes and recreates the destination only after the
action result is fetched successfully — still before any download — and
performs no filesystem event at all when that fetch (including digest
parsing) fails. -/
theorem c9_destination_cleanup_order :
    (∀ (env : Env) (rd p : String),
      (DownloadDirectory env rd p).2.take 2 = [Event.removeAll p, Event.mkdir p])
    ∧ (∀ (env : Env) (ad p : String) (res : ActionResult) (tr : List Event),
        getActionResult env ad = (.ok res, tr) →
        (DownloadActionResult env ad p).2 =
          tr ++ [Event.removeAll p, Event.mkdir p, Event.net "DownloadActionOutputs"] ++
            (outMsgEvents env (pathJoin p stdoutFile) res.stdoutDigest ++
             outMsgEvents env (pathJoin p stderrFile) res.stderrDigest))
    ∧ ∀ (env : Env) (ad p : String) (e : Err) (tr : List Event),
        getActionResult env ad = (.error e, tr) →
        (DownloadActionResult env ad p).2 = tr ∧ ∀ ev ∈ tr, isFsEvent ev = false := by
  refine ⟨?_, ?_, ?_⟩
  · intro env rd p
    simp only [DownloadDirectory]
    cases h1 : env.newFromString rd with
    | error e => simp [h1]
    | ok dg =>
      cases h2 : env.downloadDirectory dg p with
      | error e => simp [h1, h2]
      | ok u => simp [h1, h2]
  · intro env ad p res tr h
    simp only [DownloadActionResult, h]
    cases h2 : env.downloadActionOutputs res p with
    | error e => simp [h2]
    | ok u => simp [h2]
  · intro env ad p e tr h
    constructor
    · simp only [DownloadActionResult, h]
    · intro ev hev
      exact getActionResult_trace_net env ad ev (by rw [h]; exact hev)

theorem c9_destination_cleanup_order_witness :
    (DownloadDirectory badDigestEnv "not-a-digest" "/tmp/dest").2.take 2 =
      [Event.removeAll "/tmp/dest", Event.mkdir "/tmp/dest"] ∧
    (DownloadActionResult okEnv "x" "/tmp/out").2 =
      [Event.net "GetActionResult"] ++ [Event.removeAll "/tmp/out",
        Event.mkdir "/tmp/out", Event.net "DownloadActionOutputs"] ++
      (outMsgEvents okEnv (pathJoin "/tmp/out" stdoutFile) sampleActionResult.stdoutDigest ++
       outMsgEvents okEnv (pathJoin "/tmp/out" stderrFile) sampleActionResult.stderrDigest) ∧
    (DownloadActionResult badDigestEnv "x" "/tmp/out").2 = [] :=
  ⟨c9_destination_cleanup_order.1 badDigestEnv "not-a-digest" "/tmp/dest",
   c9_destination_cleanup_order.2.1 okEnv "x" "/tmp/out" sampleActionResult
     [Event.net "GetActionResult"] rfl,
   (c9_destination_cleanup_order.2.2 badDigestEnv "x" "/tmp/out"
     (.msg "malformed digest") [] rfl).1⟩

/-! ## Download failures are logged, not returned (C2) -/

/-- C2 counterexample: in an environment where downloading the action
outputs and the stdout blob both fail, `DownloadActionResult` still returns
plain success — the per-item failures are logged and dropped, not carried
back to the caller. -/
theorem c2_counterexample :
    failingDownloadEnv.downloadActionOutputs c2ActionResult "/tmp/out" =
      .error (.msg "download failed") ∧
    failingDownloadEnv.readBlob sampleDigest = .error (.msg "read failed") ∧
    (DownloadActionResult failingDownloadEnv "h/1" "/tmp/out").1 = .ok () :=
  ⟨rfl, rfl, rfl⟩

/-- C2 (amended): whenever the action result itself is fetched successfully,
`DownloadActionResult` returns success unconditionally — failures of the
output download, the stdout blob, or the stderr blob are only logged; no
per-item failure reaches the caller through the return value.  Only a
failure of the action-result fetch is returned. -/
theorem c2_download_failures_dropped (env : Env) (ad p : String) (res : ActionResult)
    (tr : List Event) (h : getActionResult env ad = (.ok res, tr)) :
    (DownloadActionResult env ad p).1 = .ok () := by
  simp only [DownloadActionResult, h]
  cases h2 : env.downloadActionOutputs res p with
  | error e => simp [h2]
  | ok u => simp [h2]

theorem c2_download_failures_dropped_witness :
    (DownloadActionResult failingDownloadEnv "h/1" "/tmp/dest").1 = .ok () :=
  c2_download_failures_dropped failingDownloadEnv "h/1" "/tmp/dest" c2ActionResult
    [Event.net "GetActionResult"] rfl

/-! ## DownloadBlob's two modes (C10) -/

/-- C10: with a non-empty path `DownloadBlob` writes the blob to that path
and returns the empty string; with an empty path it downloads via a
temporary file, returns the blob's contents, and removes the temporary file
afterwards (its final event). -/
theorem c10_download_blob_modes (env : Env) (ds p tmp : String) (dg : Digest)
    (contents : String) :
    (p ≠ "" → env.newFromString ds = .ok dg → env.readBlobToFile dg p = .ok contents →
      DownloadBlob env ds p = (.ok "", [.net "ReadBlobToFile", .fsWrite p contents]))
    ∧ (env.tempFile = .ok tmp → env.newFromString ds = .ok dg →
        env.readBlobToFile dg tmp = .ok contents →
        DownloadBlob env ds "" = (.ok contents,
          [.createTemp tmp, .net "ReadBlobToFile", .fsWrite tmp contents,
           .fsRemove tmp])) := by
  constructor
  · intro hp h1 h2
    simp only [DownloadBlob, if_neg hp, h1, h2]
  · intro htmp h1 h2
    simp [DownloadBlob, htmp, h1, h2]

theorem c10_download_blob_modes_witness :
    DownloadBlob okEnv "abc/3" "/tmp/file" =
      (.ok "", [.net "ReadBlobToFile", .fsWrite "/tmp/file" "blob-bytes"]) ∧
    DownloadBlob okEnv "abc/3" "" = (.ok "blob-bytes",
      [.createTemp "/tmp/blob123", .net "ReadBlobToFile",
       .fsWrite "/tmp/blob123" "blob-bytes", .fsRemove "/tmp/blob123"]) :=
  ⟨(c10_download_blob_modes okEnv "abc/3" "/tmp/file" "/tmp/blob123" sampleDigest
      "blob-bytes").1 (by decide) rfl rfl,
   (c10_download_blob_modes okEnv "abc/3" "/tmp/file" "/tmp/blob123" sampleDigest
      "blob-bytes").2 rfl rfl rfl⟩

/-! ## Per-RPC timeout overrides merge over the defaults (C4) -/

theorem applyOverrides_not_overridden (parse : String → Option Int) :
    ∀ (rts : List (String × String)) (base m : String → Option Int) (k : String),
      applyOverrides parse base rts = .ok m → (∀ s, (k, s) ∉ rts) → m k = base k := by
  intro rts
  induction rts with
  | nil =>
    intro base m k h _
    obtain rfl : base = m := by simpa [applyOverrides] using h
    rfl
  | cons kv rest ih =>
    intro base m k h hk
    obtain ⟨rpc, s⟩ := kv
    simp only [applyOverrides] at h
    cases hp : parse s with
    | none =>
      simp only [hp] at h
      exact absurd h (by simp)
    | some d =>
      simp only [hp] at h
      have hm := ih _ m k h (fun s' hs' => hk s' (List.mem_cons_of_mem _ hs'))
      rw [hm]
      have hkr : ¬k = rpc := fun hc => hk s (by rw [hc]; exact List.mem_cons_self _ _)
      simp [hkr]

theorem applyOverrides_overridden (parse : String → Option Int) :
    ∀ (rts : List (String × String)) (base m : String → Option Int) (k s : String)
      (d : Int), (rts.map Prod.fst).Nodup → (k, s) ∈ rts → parse s = some d →
      applyOverrides parse base rts = .ok m → m k = some d := by
  intro rts
  induction rts with
  | nil =>
    intro base m k s d _ hmem
    exact absurd hmem (by simp)
  | cons kv rest ih =>
    intro base m k s d hnodup hmem hparse hok
    obtain ⟨rpc, s'⟩ := kv
    simp only [List.map_cons, List.nodup_cons] at hnodup
    simp only [applyOverrides] at hok
    cases hp : parse s' with
    | none =>
      simp only [hp] at hok
      exact absurd hok (by simp)
    | some d' =>
      simp only [hp] at hok
      rcases List.mem_cons.mp hmem with hcase | hcase
      · obtain ⟨rfl, rfl⟩ : k = rpc ∧ s = s' := by simpa using hcase
        have hnot : ∀ s'', (k, s'') ∉ rest := by
          intro s'' hs''
          exact hnodup.1 (List.mem_map_of_mem Prod.fst hs'')
        have := applyOverrides_not_overridden parse rest _ m k hok hnot
        rw [this]
        simp only [if_pos rfl]
        rw [hparse] at hp
        simpa using hp.symm
      · exact ih _ m k s d hnodup.2 hcase hparse hok

theorem applyOverrides_bad_duration (parse : String → Option Int) :
    ∀ (rts : List (String × String)) (base : String → Option Int) (k s : String),
      (k, s) ∈ rts → parse s = none →
      isErr (applyOverrides parse base rts) = true := by
  intro rts
  induction rts with
  | nil =>
    intro base k s hmem
    exact absurd hmem (by simp)
  | cons kv rest ih =>
    intro base k s hmem hparse
    obtain ⟨rpc, s'⟩ := kv
    simp only [applyOverrides]
    cases hp : parse s' with
    | none => rfl
    | some d =>
      rcases List.mem_cons.mp hmem with hcase | hcase
      · obtain ⟨rfl, rfl⟩ : k = rpc ∧ s = s' := by simpa using hcase
        rw [hparse] at hp
        exact absurd hp (by simp)
      · exact ih _ k s hcase hparse

/-- C4: when overrides are supplied, the effective timeout map starts from
every entry of the defaults and overwrites only the overridden keys — a key
not overridden keeps its default value, an overridden key (with parse
success) gets the override — and any override whose duration string does not
parse makes the configuration build fail, so `NewClientFromFlags` returns an
error and no client. -/
theorem c4_rpc_timeout_override_merge (defaults : String → Option Int)
    (rts : List (String × String)) (parse : String → Option Int) :
    (∀ (m : String → Option Int) (k : String),
      NewClientFromFlagsTimeouts defaults rts parse = .ok (some m) →
      (∀ s, (k, s) ∉ rts) → m k = defaults k)
    ∧ (∀ (m : String → Option Int) (k s : String) (d : Int),
        (rts.map Prod.fst).Nodup →
        NewClientFromFlagsTimeouts defaults rts parse = .ok (some m) →
        (k, s) ∈ rts → parse s = some d → m k = some d)
    ∧ ∀ (k s : String), (k, s) ∈ rts → parse s = none →
        isErr (NewClientFromFlagsTimeouts defaults rts parse) = true := by
  refine ⟨?_, ?_, ?_⟩
  · intro m k h hk
    by_cases hemp : rts.isEmpty
    · rw [NewClientFromFlagsTimeouts, if_pos hemp] at h
      exact absurd h (by simp)
    · rw [NewClientFromFlagsTimeouts, if_neg hemp] at h
      cases happ : applyOverrides parse defaults rts with
      | error e =>
        rw [happ] at h
        exact absurd h (by simp)
      | ok m' =>
        rw [happ] at h
        obtain rfl : m' = m := by simpa using h
        exact applyOverrides_not_overridden parse rts defaults m' k happ hk
  · intro m k s d hnodup h hmem hparse
    by_cases hemp : rts.isEmpty
    · rw [NewClientFromFlagsTimeouts, if_pos hemp] at h
      exact absurd h (by simp)
    · rw [NewClientFromFlagsTimeouts, if_neg hemp] at h
      cases happ : applyOverrides parse defaults rts with
      | error e =>
        rw [happ] at h
        exact absurd h (by simp)
      | ok m' =>
        rw [happ] at h
        obtain rfl : m' = m := by simpa using h
        exact applyOverrides_overridden parse rts defaults m' k s d hnodup hmem hparse happ
  · intro k s hmem hparse
    have hemp : ¬rts.isEmpty := by
      cases rts with
      | nil => exact absurd hmem (by simp)
      | cons kv rest => simp
    rw [NewClientFromFlagsTimeouts, if_neg hemp]
    have hbad := applyOverrides_bad_duration parse rts defaults k s hmem hparse
    cases happ : applyOverrides parse defaults rts with
    | error e => rfl
    | ok m' =>
      rw [happ] at hbad
      exact absurd hbad (by simp [isErr])

theorem c4_rpc_timeout_override_merge_witness :
    c4merged "default" = c4defaults "default" ∧ c4merged "Execute" = some 0 ∧
      isErr (NewClientFromFlagsTimeouts c4defaults c4badRts c4parse) = true :=
  ⟨(c4_rpc_timeout_override_merge c4defaults c4rts c4parse).1 c4merged "default" rfl
      (by intro s hs; simp [c4rts] at hs),
   (c4_rpc_timeout_override_merge c4defaults c4rts c4parse).2.1 c4merged "Execute" "0" 0
      (by decide) rfl (by simp [c4rts]) rfl,
   (c4_rpc_timeout_override_merge c4defaults c4badRts c4parse).2.2 "Execute" "bogus"
      (by simp [c4badRts]) rfl⟩
